import Mathlib

/-!
Verification of the Mandelbulb 3D engine (files `Jtoolbox.py`,
`mandelclass_v04.py`) against its natural-language specification.

The Python code is embedded shallowly: numpy batches of 3-vectors become
functions `Fin n → Vec3`, elementwise numpy arithmetic becomes pointwise
real arithmetic, and the boolean masks used for the vectorized
"masked blend" updates become real-valued indicator factors, exactly as
in the source.  Scalars are idealized as real numbers.
-/

noncomputable section

namespace MandelEngine

/-- A 3-component vector of scalars (a numpy length-3 array). -/
@[ext]
structure Vec3 where
  x : ℝ
  y : ℝ
  z : ℝ

/-- Componentwise addition of 3-vectors (numpy `+` on length-3 rows). -/
def vadd (a b : Vec3) : Vec3 := ⟨a.x + b.x, a.y + b.y, a.z + b.z⟩

/-- Componentwise subtraction of 3-vectors (numpy `-` on length-3 rows). -/
def vsub (a b : Vec3) : Vec3 := ⟨a.x - b.x, a.y - b.y, a.z - b.z⟩

/-- Scalar times vector, elementwise (numpy broadcasting of a scalar). -/
def smul3 (c : ℝ) (v : Vec3) : Vec3 := ⟨c * v.x, c * v.y, c * v.z⟩

/-- Euclidean norm of a 3-vector: `LA.norm` applied to one row of the batch. -/
def vnorm (v : Vec3) : ℝ := Real.sqrt (v.x * v.x + v.y * v.y + v.z * v.z)

/-- Masked blend of two vectors, `a*m + b*n` elementwise: the numpy idiom
`new*(mask) + old*(otherMask)` from the source. -/
def vblend (a b : Vec3) (m n : ℝ) : Vec3 :=
  ⟨a.x * m + b.x * n, a.y * m + b.y * n, a.z * m + b.z * n⟩

/-- A 3x3 matrix, stored by rows (a numpy 3x3 array). -/
structure Mat3 where
  r0 : Vec3
  r1 : Vec3
  r2 : Vec3

/-- Row vector times matrix: `np.matmul(v, M)` for a length-3 `v`. -/
def mulVec3 (v : Vec3) (M : Mat3) : Vec3 :=
  ⟨v.x * M.r0.x + v.y * M.r1.x + v.z * M.r2.x,
   v.x * M.r0.y + v.y * M.r1.y + v.z * M.r2.y,
   v.x * M.r0.z + v.y * M.r1.z + v.z * M.r2.z⟩

/-- Matrix product of two 3x3 matrices, row-by-matrix. -/
def matMul (A B : Mat3) : Mat3 :=
  ⟨mulVec3 A.r0 B, mulVec3 A.r1 B, mulVec3 A.r2 B⟩

/-- Rotation matrix around the x-axis, from `Jtoolbox.rotx`:
`[[1,0,0],[0,cos,sin],[0,-sin,cos]]`. -/
def rotx (angle : ℝ) : Mat3 :=
  ⟨⟨1, 0, 0⟩, ⟨0, Real.cos angle, Real.sin angle⟩, ⟨0, -Real.sin angle, Real.cos angle⟩⟩

/-- Rotation matrix around the y-axis, from `Jtoolbox.roty`:
`[[cos,0,-sin],[0,1,0],[sin,0,cos]]`. -/
def roty (angle : ℝ) : Mat3 :=
  ⟨⟨Real.cos angle, 0, -Real.sin angle⟩, ⟨0, 1, 0⟩, ⟨Real.sin angle, 0, Real.cos angle⟩⟩

/-- Rotation matrix around the z-axis, from `Jtoolbox.rotz`:
`[[cos,sin,0],[-sin,cos,0],[0,0,1]]`. -/
def rotz (angle : ℝ) : Mat3 :=
  ⟨⟨Real.cos angle, Real.sin angle, 0⟩, ⟨-Real.sin angle, Real.cos angle, 0⟩, ⟨0, 0, 1⟩⟩

/-- Distance estimator for the radius-0.5 sphere, from `Jtoolbox.Sphere`:
`sqrt(matmul(pos*pos,[1,1,1])) - 0.5`, per point of the batch. -/
def Sphere (pos : Vec3) : ℝ :=
  Real.sqrt (pos.x * pos.x + pos.y * pos.y + pos.z * pos.z) - 0.5

/-- Real-valued indicator of a proposition: a numpy boolean mask entry used
as a multiplicative factor (`True` is 1.0, `False` is 0.0). -/
def indR (P : Prop) [Decidable P] : ℝ := if P then 1 else 0

/-- Escape bailout radius, fixed to 1.5 inside `Jtoolbox.mand2`. -/
def bailout : ℝ := 1.5

/-- Per-point loop state of `Jtoolbox.mand2`: the current iterate `z`, the
derivative accumulator `dr`, and the radius `r` computed at the top of the
most recent loop iteration (initialized to 0 before the loop). -/
structure MandState where
  z : Vec3
  dr : ℝ
  r : ℝ

/-- One iteration of the `mand2` loop body for a single point of the batch,
from `Jtoolbox.mand2` lines 110-132: recompute `r = |z|`, convert to polar
form with `theta = arccos(zz/r)` and `phi = arctan(zy/zx)` (single-argument
arctangent), update the derivative accumulator through the masked blend
`drnew*(r<bailout) + dr*(r>=bailout)`, scale `zr = r^power`,
`theta *= power`, `phi *= power`, reconstruct Cartesian coordinates, and
blend `(znew+pos)*(r<bailout) + z*(r>=bailout)`. -/
def mand2Step (pos : Vec3) (power : ℕ) (s : MandState) : MandState :=
  let r := vnorm s.z
  let theta := Real.arccos (s.z.z / r)
  let phi := Real.arctan (s.z.y / s.z.x)
  let drnew := r ^ (power - 1) * (power : ℝ) * s.dr + 1
  let dr := drnew * indR (r < bailout) + s.dr * indR (r ≥ bailout)
  let zr := r ^ power
  let theta2 := theta * (power : ℝ)
  let phi2 := phi * (power : ℝ)
  let znew : Vec3 := ⟨zr * (Real.sin theta2 * Real.cos phi2),
                      zr * (Real.sin phi2 * Real.sin theta2),
                      zr * Real.cos theta2⟩
  ⟨vblend (vadd znew pos) s.z (indR (r < bailout)) (indR (r ≥ bailout)), dr, r⟩

/-- The `for jj in range(iterations)` loop of `Jtoolbox.mand2`, as fuel
recursion on the remaining iteration count. -/
def mand2Loop (pos : Vec3) (power : ℕ) : ℕ → MandState → MandState
  | 0, s => s
  | n + 1, s => mand2Loop pos power n (mand2Step pos power s)

/-- Distance estimator for the Mandelbulb fractal, from `Jtoolbox.mand2`,
for a single point of the batch: run the loop `iterations` times starting
from `z = pos`, `dr = 1`, `r = 0`, then return
`abs(0.5*log(r)*divide(r,dr))`. -/
def mand2P (pos : Vec3) (iterations power : ℕ) : ℝ :=
  let s := mand2Loop pos power iterations ⟨pos, 1, 0⟩
  |0.5 * Real.log s.r * (s.r / s.dr)|

/-- The batch form of `Jtoolbox.mand2`: all numpy operations in its body
act elementwise across the batch, so the estimator maps `mand2P` over the
rows of the position array. -/
def mand2B {n : ℕ} (pos : Fin n → Vec3) (iterations power : ℕ) : Fin n → ℝ :=
  fun i => mand2P (pos i) iterations power

/-- Modelled from the spec: one step of the "polar power iteration" as the
spec words it — convert `z` to polar form (`r = |z|`, `theta = arccos(zz/r)`,
`phi` the single-argument arctangent of `zy/zx`), and for points with
`r < bailout` update `dr` to `r^(power-1)*power*dr + 1`, scale, and
reconstruct Cartesian `z` plus the original sample position, while points
with `r ≥ bailout` keep their previous `dr` and `z` (branch form of the
masked blend). -/
def specPolarStep (pos : Vec3) (power : ℕ) (s : MandState) : MandState :=
  let r := vnorm s.z
  if r < bailout then
    let theta := Real.arccos (s.z.z / r) * (power : ℝ)
    let phi := Real.arctan (s.z.y / s.z.x) * (power : ℝ)
    let zr := r ^ power
    let znew : Vec3 := ⟨zr * (Real.sin theta * Real.cos phi),
                        zr * (Real.sin phi * Real.sin theta),
                        zr * Real.cos theta⟩
    ⟨vadd znew pos, r ^ (power - 1) * (power : ℝ) * s.dr + 1, r⟩
  else
    ⟨s.z, s.dr, r⟩

/-- Modelled from the spec: the Mandelbulb estimator described as exactly
`iterations` applications of the polar power iteration step, followed by
the distance formula `|0.5 * ln(r) * r / dr|`. -/
def specMand2 (pos : Vec3) (iterations power : ℕ) : ℝ :=
  let s := (specPolarStep pos power)^[iterations] ⟨pos, 1, 0⟩
  |0.5 * Real.log s.r * s.r / s.dr|

/-- Abort radius of the ray marcher: positions farther than 4 from the
origin receive a zero mask in `Mandelbulb.visualize`. -/
def abortRadius : ℝ := 4

/-- One marching update of a single ray, from `Mandelbulb.visualize`
lines 87-93 read elementwise: `step = de(pos)*0.4`, then
`step *= (norm(pos) < 4)`, then `pos += dirs*abs(step)`. -/
def rayStep (de : Vec3 → ℝ) (dir p : Vec3) : Vec3 :=
  let step := de p * 0.4
  let step2 := step * indR (vnorm p < abortRadius)
  vadd p (smul3 |step2| dir)

/-- One marching iteration over the whole ray batch: every numpy operation
in the loop body is elementwise, so the batch update applies `rayStep` to
each ray position with its own direction. -/
def marchStep {n : ℕ} (de : Vec3 → ℝ) (dirs pos : Fin n → Vec3) : Fin n → Vec3 :=
  fun i => rayStep de (dirs i) (pos i)

/-- The `for ii in range(self.nmarch)` marching loop of
`Mandelbulb.visualize`, as fuel recursion on the remaining iterations. -/
def march {n : ℕ} (de : Vec3 → ℝ) (dirs : Fin n → Vec3) : ℕ → (Fin n → Vec3) → Fin n → Vec3
  | 0, pos => pos
  | k + 1, pos => march de dirs k (marchStep de dirs pos)

/-- Embedding of `np.linspace(a, b, n)`: `n` evenly spaced samples from `a`
to `b` inclusive (the single sample is `a` when `n = 1`). -/
def linspace (a b : ℝ) (n : ℕ) : Fin n → ℝ :=
  fun i => if n ≤ 1 then a else a + (i : ℝ) * (b - a) / ((n : ℝ) - 1)

/-- The mutable state of a `Mandelbulb` object from `mandelclass_v04.py`:
the seven configuration fields, the stored camera position `campos`, and
the three fields written by `visualize` (absent before the first call). -/
structure Bulb where
  res : ℕ
  nmarch : ℕ
  order : ℕ
  power : ℕ
  proximity : ℝ
  ele : ℝ
  azi : ℝ
  campos : Vec3
  pos : Option (Fin (res ^ 2) → Vec3)
  elapsedTime : Option ℝ
  fname : Option String

/-- Constructor `Mandelbulb.__init__`: store the configuration and set
`campos = [0, proximity, 0]`; no validation is performed. -/
def mandelInit (res nmarch order power : ℕ) (proximity ele azi : ℝ) : Bulb :=
  ⟨res, nmarch, order, power, proximity, ele, azi, ⟨0, proximity, 0⟩, none, none, none⟩

/-- Row index of flat ray `k` in the `res*res` image grid (C-order reshape
of the meshgrid). -/
def gridRow (res : ℕ) (k : Fin (res ^ 2)) : Fin res :=
  ⟨(k : ℕ) / res, by
    rcases Nat.eq_zero_or_pos res with h | h
    · exact absurd k.isLt (by simp [h])
    · exact Nat.div_lt_of_lt_mul (by simpa [pow_two] using k.isLt)⟩

/-- Column index of flat ray `k` in the `res*res` image grid. -/
def gridCol (res : ℕ) (k : Fin (res ^ 2)) : Fin res :=
  ⟨(k : ℕ) % res, by
    rcases Nat.eq_zero_or_pos res with h | h
    · exact absurd k.isLt (by simp [h])
    · exact Nat.mod_lt _ h⟩

/-- Flat ray index of grid cell `(i, j)`: row-major flattening `i*res + j`,
inverse of `gridRow`/`gridCol`. -/
def flatIdx (res : ℕ) (i j : Fin res) : Fin (res ^ 2) :=
  ⟨(i : ℕ) * res + (j : ℕ), by
    calc (i : ℕ) * res + (j : ℕ) < (i : ℕ) * res + res := by
          exact Nat.add_lt_add_left j.isLt _
      _ = ((i : ℕ) + 1) * res := by ring
      _ ≤ res * res := Nat.mul_le_mul_right _ (Nat.succ_le_of_lt i.isLt)
      _ = res ^ 2 := (pow_two res).symm⟩

/-- Unnormalized ray directions before rotation, from `Mandelbulb.visualize`
lines 56-66: the C-order flattening of the meshgrid of
`linspace(-0.5, 0.5, res)` against itself with `indexing="ij"`, with a unit
z-component. -/
def rawDir (res : ℕ) (k : Fin (res ^ 2)) : Vec3 :=
  ⟨linspace (-0.5) 0.5 res (gridRow res k), linspace (-0.5) 0.5 res (gridCol res k), 1⟩

/-- Vector divided by a scalar, elementwise (numpy `np.divide` of a batch
row by its norm). -/
def vdivS (v : Vec3) (c : ℝ) : Vec3 := ⟨v.x / c, v.y / c, v.z / c⟩

/-- Rotated, normalized ray directions of `Mandelbulb.visualize`
lines 69-75: normalize each direction, then multiply on the right by
`rotx(pi/2)`, then `rotx(ele)`, then `rotz(azi)`. -/
def dirsRot (s : Bulb) (k : Fin (s.res ^ 2)) : Vec3 :=
  let d := rawDir s.res k
  let dn := vdivS d (vnorm d)
  mulVec3 (mulVec3 (mulVec3 dn (rotx (Real.pi / 2))) (rotx s.ele)) (rotz s.azi)

/-- The local rotated camera position of `Mandelbulb.visualize` lines 73
and 76: `campos` multiplied by `rotx(ele)` and then `rotz(azi)` (and by
nothing else). -/
def camposRot (s : Bulb) : Vec3 :=
  mulVec3 (mulVec3 s.campos (rotx s.ele)) (rotz s.azi)

/-- Final ray positions computed by the marching loop of
`Mandelbulb.visualize`: every ray starts at the rotated camera position and
is marched `nmarch` times with the estimator `mand2(pos, order, power)`. -/
def marchedPositions (s : Bulb) : Fin (s.res ^ 2) → Vec3 :=
  march (fun p => mand2P p s.order s.power) (dirsRot s) s.nmarch (fun _ => camposRot s)

/-- Method `Mandelbulb.visualize`: store the marched positions in `pos`
and write `elapsedTime` and `fname`; the wall-clock reading and the
timestamped file name are inputs from the environment.  No other field is
assigned. -/
def visualizeS (s : Bulb) (t : ℝ) (nm : String) : Bulb :=
  { s with pos := some (marchedPositions s), elapsedTime := some t, fname := some nm }

/-- Method `Mandelbulb.visualize` seen through an error monad: the source
contains no configuration check and no raise statement, so every
configuration reaches the `ok` branch. -/
def visualizeE (s : Bulb) (t : ℝ) (nm : String) : Except String Bulb :=
  Except.ok (visualizeS s t nm)

/-- The distance map of `Mandelbulb.render` line 107:
`sqrt(matmul(square(pos - campos), [1,1,1]))` per ray, using the stored
field `campos`, available once `visualize` has filled `pos`. -/
def bulbDis (s : Bulb) : Option (Fin (s.res ^ 2) → ℝ) :=
  s.pos.map (fun P k =>
    let d := vsub (P k) s.campos
    Real.sqrt (d.x * d.x + d.y * d.y + d.z * d.z))

/-- The reshaped `res x res` depth image of `Mandelbulb.render` line 109:
C-order reshape of the flat distance array. -/
def bulbDepthMap (s : Bulb) : Option (Fin s.res → Fin s.res → ℝ) :=
  (bulbDis s).map (fun dis i j => dis (flatIdx s.res i j))

/-- Euclidean distance between two points of space. -/
def edist3 (a b : Vec3) : ℝ :=
  Real.sqrt ((a.x - b.x) * (a.x - b.x) + (a.y - b.y) * (a.y - b.y) + (a.z - b.z) * (a.z - b.z))

/-! Helper lemmas shared by the claim theorems. -/

lemma indR_of {P : Prop} [Decidable P] (h : P) : indR P = 1 := if_pos h

lemma indR_not {P : Prop} [Decidable P] (h : ¬P) : indR P = 0 := if_neg h

lemma sqrt_eval {a b : ℝ} (hb : 0 ≤ b) (hab : a = b ^ 2) : Real.sqrt a = b := by
  rw [hab, Real.sqrt_sq hb]

/-- The masked-blend body of `mand2` agrees with the branch form that the
spec describes, pointwise on states. -/
lemma mand2Step_eq_specPolarStep (pos : Vec3) (power : ℕ) (s : MandState) :
    mand2Step pos power s = specPolarStep pos power s := by
  by_cases h : vnorm s.z < bailout
  · simp only [mand2Step, specPolarStep, if_pos h, indR_of h, indR_not (not_le.mpr h),
      ge_iff_le, MandState.mk.injEq, vblend, vadd, mul_one, mul_zero, add_zero]
  · simp only [mand2Step, specPolarStep, if_neg h, indR_not h, indR_of (not_lt.mp h),
      ge_iff_le, MandState.mk.injEq, vblend, vadd, mul_one, mul_zero, zero_add,
      zero_mul, zero_add]

/-- The fuel recursion of the `mand2` loop is the iterate of the spec step. -/
lemma mand2Loop_eq_iterate (pos : Vec3) (power : ℕ) :
    ∀ (n : ℕ) (s : MandState),
      mand2Loop pos power n s = (specPolarStep pos power)^[n] s := by
  intro n
  induction n with
  | zero => intro s; rfl
  | succ n ih =>
    intro s
    rw [mand2Loop, ih, mand2Step_eq_specPolarStep, Function.iterate_succ_apply]

/-- If the mask `r ≥ bailout` holds, one `mand2` iteration keeps `z` and
`dr` and only refreshes the stored radius. -/
lemma mand2Step_frozen (pos : Vec3) (power : ℕ) (s : MandState)
    (h : bailout ≤ vnorm s.z) :
    mand2Step pos power s = ⟨s.z, s.dr, vnorm s.z⟩ := by
  simp only [mand2Step, indR_not (not_lt.mpr h), indR_of (ge_iff_le.mpr h), ge_iff_le,
    MandState.mk.injEq, vblend, mul_one, mul_zero, zero_add, zero_mul]

/-- A ray whose position norm has reached the abort radius receives a zero
step mask and is left exactly in place. -/
lemma rayStep_frozen (de : Vec3 → ℝ) (dir p : Vec3) (h : abortRadius ≤ vnorm p) :
    rayStep de dir p = p := by
  simp only [rayStep, indR_not (not_lt.mpr h), mul_zero, abs_zero, smul3, vadd,
    zero_mul, add_zero]

/-- An active ray advances by the damped absolute step along its direction. -/
lemma rayStep_active (de : Vec3 → ℝ) (dir p : Vec3) (h : vnorm p < abortRadius) :
    rayStep de dir p = vadd p (smul3 |de p * 0.4| dir) := by
  simp only [rayStep, indR_of h, mul_one]

/-- The marching fuel recursion is the iterate of the batch step. -/
lemma march_eq_iterate {N : ℕ} (de : Vec3 → ℝ) (dirs : Fin N → Vec3) :
    ∀ (n : ℕ) (pos : Fin N → Vec3),
      march de dirs n pos = (marchStep de dirs)^[n] pos := by
  intro n
  induction n with
  | zero => intro pos; rfl
  | succ n ih =>
    intro pos
    rw [march, ih, Function.iterate_succ_apply]

/-- The batch marching step acts pointwise: ray `i` of the iterated batch
is the per-ray iterate of ray `i`. -/
lemma marchStep_iterate_apply {N : ℕ} (de : Vec3 → ℝ) (dirs : Fin N → Vec3) :
    ∀ (n : ℕ) (pos : Fin N → Vec3) (i : Fin N),
      ((marchStep de dirs)^[n] pos) i = (fun p => rayStep de (dirs i) p)^[n] (pos i) := by
  intro n
  induction n with
  | zero => intro pos i; rfl
  | succ n ih =>
    intro pos i
    rw [Function.iterate_succ_apply, Function.iterate_succ_apply, ih]
    rfl

/-! Claim theorems. -/

/-- C1: Ray-Marcher freezing invariant — if at marching iteration `k` the
Euclidean norm of the position of ray `i` is at least the abort radius 4.0,
then at every later iteration `k + n` the position of ray `i` is exactly
the position it had at iteration `k`: no further update is ever applied. -/
theorem marcher_freezing_invariant {N : ℕ} (de : Vec3 → ℝ) (dirs pos0 : Fin N → Vec3)
    (i : Fin N) (k n : ℕ) (h : abortRadius ≤ vnorm (march de dirs k pos0 i)) :
    march de dirs (k + n) pos0 i = march de dirs k pos0 i := by
  have hfix : rayStep de (dirs i) (march de dirs k pos0 i) = march de dirs k pos0 i :=
    rayStep_frozen de (dirs i) _ h
  rw [march_eq_iterate, add_comm k n, Function.iterate_add_apply,
    marchStep_iterate_apply, ← march_eq_iterate]
  exact Function.iterate_fixed hfix n

/-- Witness for C1 at a concrete batch: one ray at position `(0,0,5)` with
norm 5 at iteration 0 stays at `(0,0,5)` through three further iterations. -/
theorem marcher_freezing_invariant_witness :
    abortRadius ≤
      vnorm (march (fun _ => 1) (fun _ : Fin 1 => ⟨1, 0, 0⟩) 0 (fun _ => ⟨0, 0, 5⟩) 0) ∧
    march (fun _ => 1) (fun _ : Fin 1 => ⟨1, 0, 0⟩) (0 + 3) (fun _ => ⟨0, 0, 5⟩) 0 =
      march (fun _ => 1) (fun _ : Fin 1 => ⟨1, 0, 0⟩) 0 (fun _ => ⟨0, 0, 5⟩) 0 := by
  have h : abortRadius ≤
      vnorm (march (fun _ => 1) (fun _ : Fin 1 => ⟨1, 0, 0⟩) 0 (fun _ => ⟨0, 0, 5⟩) 0) := by
    show abortRadius ≤ vnorm ⟨0, 0, 5⟩
    rw [vnorm, abortRadius, sqrt_eval (b := 5) (by norm_num) (by norm_num)]
    norm_num
  exact ⟨h, marcher_freezing_invariant (fun _ => 1) _ _ 0 0 3 h⟩

/-- C2: Ray-Marcher transition — the marching loop is exactly `nmarch`
applications of the batch step (no early exit or convergence check), and in
each iteration a ray below the abort radius advances by
`position + direction * |de(position) * 0.4|` while a ray at or beyond the
abort radius is left unchanged. -/
theorem marcher_transition {N : ℕ} (de : Vec3 → ℝ) (dirs : Fin N → Vec3) (nmarch : ℕ)
    (pos : Fin N → Vec3) :
    march de dirs nmarch pos = (marchStep de dirs)^[nmarch] pos ∧
    (∀ (q : Fin N → Vec3) (i : Fin N), vnorm (q i) < abortRadius →
      marchStep de dirs q i = vadd (q i) (smul3 |de (q i) * 0.4| (dirs i))) ∧
    (∀ (q : Fin N → Vec3) (i : Fin N), ¬ vnorm (q i) < abortRadius →
      marchStep de dirs q i = q i) := by
  refine ⟨march_eq_iterate de dirs nmarch pos, ?_, ?_⟩
  · intro q i h
    exact rayStep_active de (dirs i) (q i) h
  · intro q i h
    exact rayStep_frozen de (dirs i) (q i) (not_lt.mp h)

/-- Witness for C2 at concrete batches: a ray at `(0,0,1)` (norm 1, active)
advances by the damped step, and a ray at `(0,0,5)` (norm 5, frozen) is
unchanged. -/
theorem marcher_transition_witness :
    (vnorm (⟨0, 0, 1⟩ : Vec3) < abortRadius ∧
      marchStep (fun _ => 1) (fun _ : Fin 1 => ⟨0, 0, 1⟩) (fun _ => ⟨0, 0, 1⟩) 0 =
        vadd ⟨0, 0, 1⟩ (smul3 |(1 : ℝ) * 0.4| ⟨0, 0, 1⟩)) ∧
    (¬ vnorm (⟨0, 0, 5⟩ : Vec3) < abortRadius ∧
      marchStep (fun _ => 1) (fun _ : Fin 1 => ⟨0, 0, 1⟩) (fun _ => ⟨0, 0, 5⟩) 0 =
        ⟨0, 0, 5⟩) := by
  have h1 : vnorm (⟨0, 0, 1⟩ : Vec3) < abortRadius := by
    rw [vnorm, abortRadius, sqrt_eval (b := 1) (by norm_num) (by norm_num)]
    norm_num
  have h5 : ¬ vnorm (⟨0, 0, 5⟩ : Vec3) < abortRadius := by
    rw [vnorm, abortRadius, sqrt_eval (b := 5) (by norm_num) (by norm_num)]
    norm_num
  refine ⟨⟨h1, ?_⟩, ⟨h5, ?_⟩⟩
  · exact (marcher_transition (fun _ => 1) (fun _ : Fin 1 => ⟨0, 0, 1⟩) 1
      (fun _ => ⟨0, 0, 1⟩)).2.1 (fun _ => ⟨0, 0, 1⟩) 0 h1
  · exact (marcher_transition (fun _ => 1) (fun _ : Fin 1 => ⟨0, 0, 1⟩) 1
      (fun _ => ⟨0, 0, 1⟩)).2.2 (fun _ => ⟨0, 0, 5⟩) 0 h5

/-- C3: for every batch of points, the Mandelbulb estimator `mand2`
performs, elementwise, exactly `iterations` applications of the polar power
iteration step (polar form `r = |z|`, `theta = arccos(zz/r)`, `phi` the
single-argument arctangent of `zy/zx`) and then returns
`|0.5 * ln(r) * r / dr|`. -/
theorem mand2_polar_iteration {n : ℕ} (pos : Fin n → Vec3) (iterations power : ℕ)
    (i : Fin n) :
    mand2B pos iterations power i = specMand2 (pos i) iterations power := by
  rw [mand2B, mand2P, specMand2, mand2Loop_eq_iterate, mul_div_assoc]

/-- C4: inside one `mand2` iteration, the derivative update
`dr_new = r^(power-1) * power * dr + 1` is applied exactly to points whose
radius is below the bailout, while a point whose radius has reached the
bailout keeps its previous `dr` and its previous `z` for that iteration and
for every number of remaining iterations. -/
theorem mand2_bailout_freeze (pos : Vec3) (power : ℕ) (s : MandState) :
    (vnorm s.z < bailout →
      (mand2Step pos power s).dr =
        vnorm s.z ^ (power - 1) * (power : ℝ) * s.dr + 1 ∧
      (mand2Step pos power s).z =
        vadd ⟨vnorm s.z ^ power *
                (Real.sin (Real.arccos (s.z.z / vnorm s.z) * (power : ℝ)) *
                 Real.cos (Real.arctan (s.z.y / s.z.x) * (power : ℝ))),
              vnorm s.z ^ power *
                (Real.sin (Real.arctan (s.z.y / s.z.x) * (power : ℝ)) *
                 Real.sin (Real.arccos (s.z.z / vnorm s.z) * (power : ℝ))),
              vnorm s.z ^ power *
                Real.cos (Real.arccos (s.z.z / vnorm s.z) * (power : ℝ))⟩ pos) ∧
    (bailout ≤ vnorm s.z → ∀ m : ℕ,
      (mand2Loop pos power m s).z = s.z ∧ (mand2Loop pos power m s).dr = s.dr) := by
  constructor
  · intro h
    rw [mand2Step_eq_specPolarStep]
    constructor
    · simp only [specPolarStep, if_pos h]
    · simp only [specPolarStep, if_pos h]
  · intro h m
    induction m generalizing s with
    | zero => exact ⟨rfl, rfl⟩
    | succ m ih =>
      have hstep := mand2Step_frozen pos power s h
      have hz : (mand2Step pos power s).z = s.z := by rw [hstep]
      have hdr : (mand2Step pos power s).dr = s.dr := by rw [hstep]
      have h2 : bailout ≤ vnorm (mand2Step pos power s).z := by rw [hz]; exact h
      rcases ih (mand2Step pos power s) h2 with ⟨ihz, ihdr⟩
      exact ⟨by rw [mand2Loop, ihz, hz], by rw [mand2Loop, ihdr, hdr]⟩

/-- Witness for C4 at concrete states: at `z = (0,0,1)` (radius 1, below
bailout) the derivative update fires, and at `z = (0,0,2)` (radius 2, at or
beyond bailout) `z` and `dr` are kept through two further iterations. -/
theorem mand2_bailout_freeze_witness :
    (vnorm (⟨0, 0, 1⟩ : Vec3) < bailout ∧
      (mand2Step ⟨0, 0, 0⟩ 8 ⟨⟨0, 0, 1⟩, 1, 0⟩).dr =
        vnorm (⟨0, 0, 1⟩ : Vec3) ^ (8 - 1) * (8 : ℝ) * 1 + 1) ∧
    (bailout ≤ vnorm (⟨0, 0, 2⟩ : Vec3) ∧
      (mand2Loop ⟨0, 0, 0⟩ 8 2 ⟨⟨0, 0, 2⟩, 1, 0⟩).z = ⟨0, 0, 2⟩ ∧
      (mand2Loop ⟨0, 0, 0⟩ 8 2 ⟨⟨0, 0, 2⟩, 1, 0⟩).dr = 1) := by
  have h1 : vnorm (⟨0, 0, 1⟩ : Vec3) < bailout := by
    rw [vnorm, bailout, sqrt_eval (b := 1) (by norm_num) (by norm_num)]
    norm_num
  have h2 : bailout ≤ vnorm (⟨0, 0, 2⟩ : Vec3) := by
    rw [vnorm, bailout, sqrt_eval (b := 2) (by norm_num) (by norm_num)]
    norm_num
  refine ⟨⟨h1, ?_⟩, ⟨h2, ?_⟩⟩
  · exact ((mand2_bailout_freeze ⟨0, 0, 0⟩ 8 ⟨⟨0, 0, 1⟩, 1, 0⟩).1 h1).1
  · exact (mand2_bailout_freeze ⟨0, 0, 0⟩ 8 ⟨⟨0, 0, 2⟩, 1, 0⟩).2 h2 2

/-- Row-by-matrix application is compatible with the matrix product, so
successive rotations of a row vector compose into one matrix. -/
lemma mulVec3_matMul (v : Vec3) (A B : Mat3) :
    mulVec3 (mulVec3 v A) B = mulVec3 v (matMul A B) := by
  simp only [mulVec3, matMul, Vec3.mk.injEq]
  refine ⟨by ring, by ring, by ring⟩

/-- Distance of a point to itself is zero. -/
lemma edist3_self (a : Vec3) : edist3 a a = 0 := by
  simp [edist3]

/-- C5 counterexample: with `res = 1`, `nmarch = 0`, `proximity = 3`,
`ele = 0`, `azi = pi`, the produced depth value is 6 — the distance to the
stored unrotated `campos` — while the distance from the final ray position
to the rotated camera position (the common ray origin) is 0; so the claim
that the depth equals the distance to the rotated camera position fails. -/
theorem depth_rotated_campos_counterexample :
    (bulbDis (visualizeS (mandelInit 1 0 6 8 3 0 Real.pi) 0 "f")).map
        (fun dis => dis ⟨0, Nat.one_pos⟩) = some 6 ∧
    edist3 (marchedPositions (mandelInit 1 0 6 8 3 0 Real.pi) ⟨0, Nat.one_pos⟩)
        (camposRot (mandelInit 1 0 6 8 3 0 Real.pi)) = 0 ∧
    (6 : ℝ) ≠ 0 := by
  have hcr : camposRot (mandelInit 1 0 6 8 3 0 Real.pi) = ⟨0, -3, 0⟩ := by
    show mulVec3 (mulVec3 ⟨0, 3, 0⟩ (rotx 0)) (rotz Real.pi) = _
    simp only [mulVec3, rotx, rotz, Real.cos_zero, Real.sin_zero, Real.cos_pi,
      Real.sin_pi, Vec3.mk.injEq]
    norm_num
  have hmp : marchedPositions (mandelInit 1 0 6 8 3 0 Real.pi) ⟨0, Nat.one_pos⟩ =
      camposRot (mandelInit 1 0 6 8 3 0 Real.pi) := rfl
  refine ⟨?_, ?_, by norm_num⟩
  · show some ((fun k =>
        let d := vsub (marchedPositions (mandelInit 1 0 6 8 3 0 Real.pi) k)
          (mandelInit 1 0 6 8 3 0 Real.pi).campos
        Real.sqrt (d.x * d.x + d.y * d.y + d.z * d.z)) (⟨0, Nat.one_pos⟩ :
          Fin ((mandelInit 1 0 6 8 3 0 Real.pi).res ^ 2))) = some 6
    rw [Option.some_inj]
    show Real.sqrt _ = 6
    rw [hmp, hcr]
    show Real.sqrt ((0 - 0) * (0 - 0) + (-3 - 3) * (-3 - 3) + (0 - 0) * (0 - 0)) = 6
    rw [sqrt_eval (b := 6) (by norm_num) (by norm_num)]
  · rw [hmp, edist3_self]

/-- C5 amended: the depth value of ray `(i, j)` is the Euclidean distance
between that ray's final marched position and the stored, unrotated camera
position `campos`; the flat distances are laid out row-major in an
`res x res` grid in ray-generation order for every configuration. -/
theorem depth_map_amended (s : Bulb) (t : ℝ) (nm : String) :
    bulbDepthMap (visualizeS s t nm) =
      some (fun i j => edist3 (marchedPositions s (flatIdx s.res i j)) s.campos) := rfl

/-- C6 counterexample: with the default orientation `ele = azi = 0` and
`proximity = 3`, the rotated camera position the code uses is `(0, 3, 0)`,
while applying the same three rotations as the ray directions (the initial
`rotx(pi/2)` included) would give `(0, 0, 3)`; so the claim that the camera
position undergoes exactly the same three rotations as the directions
fails. -/
theorem camera_three_rotations_counterexample :
    camposRot (mandelInit 1 0 6 8 3 0 0) ≠
      mulVec3 (mulVec3 (mulVec3 (mandelInit 1 0 6 8 3 0 0).campos
        (rotx (Real.pi / 2))) (rotx (mandelInit 1 0 6 8 3 0 0).ele))
        (rotz (mandelInit 1 0 6 8 3 0 0).azi) := by
  have hL : camposRot (mandelInit 1 0 6 8 3 0 0) = ⟨0, 3, 0⟩ := by
    show mulVec3 (mulVec3 ⟨0, 3, 0⟩ (rotx 0)) (rotz 0) = _
    simp only [mulVec3, rotx, rotz, Real.cos_zero, Real.sin_zero, Vec3.mk.injEq]
    norm_num
  have hR : mulVec3 (mulVec3 (mulVec3 (mandelInit 1 0 6 8 3 0 0).campos
      (rotx (Real.pi / 2))) (rotx (mandelInit 1 0 6 8 3 0 0).ele))
      (rotz (mandelInit 1 0 6 8 3 0 0).azi) = ⟨0, 0, 3⟩ := by
    show mulVec3 (mulVec3 (mulVec3 ⟨0, 3, 0⟩ (rotx (Real.pi / 2))) (rotx 0)) (rotz 0) = _
    simp only [mulVec3, rotx, rotz, Real.cos_zero, Real.sin_zero,
      Real.cos_pi_div_two, Real.sin_pi_div_two, Vec3.mk.injEq]
    norm_num
  rw [hL, hR]
  intro h
  rw [Vec3.mk.injEq] at h
  norm_num at h

/-- C6 amended: the ray directions are rotated by the composed matrix
`rotx(pi/2) * rotx(ele) * rotz(azi)`, while the camera position is rotated
only by the composed matrix `rotx(ele) * rotz(azi)` — the initial 90-degree
correction is applied to the directions alone. -/
theorem camera_rotations_amended (s : Bulb) (k : Fin (s.res ^ 2)) :
    dirsRot s k =
      mulVec3 (vdivS (rawDir s.res k) (vnorm (rawDir s.res k)))
        (matMul (matMul (rotx (Real.pi / 2)) (rotx s.ele)) (rotz s.azi)) ∧
    camposRot s = mulVec3 s.campos (matMul (rotx s.ele) (rotz s.azi)) := by
  constructor
  · show mulVec3 (mulVec3 (mulVec3 (vdivS (rawDir s.res k)
      (vnorm (rawDir s.res k))) (rotx (Real.pi / 2))) (rotx s.ele)) (rotz s.azi) = _
    rw [mulVec3_matMul _ (rotx (Real.pi / 2)) (rotx s.ele), mulVec3_matMul]
  · rw [camposRot, mulVec3_matMul]

/-- C8: the sphere distance estimator equals `|p| - 0.5`, is therefore at
least `-0.5` for every point, and vanishes exactly on the sphere of radius
0.5 around the origin. -/
theorem sphere_distance_props (p : Vec3) :
    Sphere p = vnorm p - 0.5 ∧ -0.5 ≤ Sphere p ∧ (Sphere p = 0 ↔ vnorm p = 0.5) := by
  have h0 : (0 : ℝ) ≤ vnorm p := Real.sqrt_nonneg _
  refine ⟨rfl, ?_, ?_⟩
  · have h : Sphere p = vnorm p - 0.5 := rfl
    linarith
  · rw [show Sphere p = vnorm p - 0.5 from rfl, sub_eq_zero]

/-- C9 counterexample: the malformed configuration with resolution 0 and
fractal order 0 does not fail fast — `visualize` returns successfully (the
embedding into the error monad takes the `ok` branch, as the source has no
validation or raise statement) and the run degenerates silently to a batch
of zero rays. -/
theorem config_validation_counterexample :
    visualizeE (mandelInit 0 200 0 8 3 0 0) 0 "f" =
      Except.ok (visualizeS (mandelInit 0 200 0 8 3 0 0) 0 "f") ∧
    (mandelInit 0 200 0 8 3 0 0).res ^ 2 = 0 :=
  ⟨rfl, rfl⟩

/-- C9 amended: no configuration validation exists — every configuration,
the malformed ones with zero resolution or zero fractal order included,
runs without any error, and zero resolution silently yields a degenerate
computation over an empty ray batch. -/
theorem config_validation_amended (res nmarch order power : ℕ) (prox ele azi t : ℝ)
    (nm : String) :
    visualizeE (mandelInit res nmarch order power prox ele azi) t nm =
      Except.ok (visualizeS (mandelInit res nmarch order power prox ele azi) t nm) ∧
    (mandelInit 0 nmarch order power prox ele azi).res ^ 2 = 0 :=
  ⟨rfl, rfl⟩

/-- C10: `visualize` leaves every configuration field of the object
unchanged — `res`, `nmarch`, `order`, `power`, `proximity`, `ele`, `azi`,
and `campos`, which the constructor sets to the unrotated `(0, proximity, 0)`
— and writes exactly the fields `pos` (the marched positions),
`elapsedTime`, and `fname`. -/
theorem visualize_frame_effect (s : Bulb) (t : ℝ) (nm : String) :
    (visualizeS s t nm).res = s.res ∧
    (visualizeS s t nm).nmarch = s.nmarch ∧
    (visualizeS s t nm).order = s.order ∧
    (visualizeS s t nm).power = s.power ∧
    (visualizeS s t nm).proximity = s.proximity ∧
    (visualizeS s t nm).ele = s.ele ∧
    (visualizeS s t nm).azi = s.azi ∧
    (visualizeS s t nm).campos = s.campos ∧
    (visualizeS s t nm).pos = some (marchedPositions s) ∧
    (visualizeS s t nm).elapsedTime = some t ∧
    (visualizeS s t nm).fname = some nm ∧
    ∀ (res2 nmarch2 order2 power2 : ℕ) (prox2 ele2 azi2 : ℝ),
      (mandelInit res2 nmarch2 order2 power2 prox2 ele2 azi2).campos = ⟨0, prox2, 0⟩ :=
  ⟨rfl, rfl, rfl, rfl, rfl, rfl, rfl, rfl, rfl, rfl, rfl, fun _ _ _ _ _ _ _ => rfl⟩

end MandelEngine
